import Mathlib

/-!
Verification of the lcanalyzer statistics/normalization module
(src/lcanalyzer/models.py) against its natural-language specification.

The module operates on pandas DataFrames.  We embed the fragment of pandas
semantics the module uses:

* cell values are exact rationals (for the numeric dtypes), strings
  (object dtype), or the special floats NaN / +inf / -inf that arise from
  degenerate arithmetic (0/0, q/0);
* a DataFrame is an ordered association list from column names to columns
  (lists of cell values), one entry per row;
* `Series.min` / `Series.max` skip NaN, work on all-numeric or all-string
  columns (lexicographic order for strings) and raise TypeError on mixed
  columns; `Series.mean` raises TypeError as soon as a string is present,
  otherwise averages the non-NaN entries;
* `df - scalar` broadcasts the subtraction over every cell of the table and
  raises TypeError when a string cell (or a string scalar) is involved;
* `series.fillna(0)` replaces exactly the NaN entries by 0;
* indexing a DataFrame with a missing column name raises KeyError, and
  indexing a raw Python string with a string key raises TypeError.

Fallible operations return `Except PdError`.
-/

/-- A cell value: exact rational (numeric dtypes), string (object dtype),
or one of the special floats NaN, +inf, -inf. -/
inductive Value where
  | num (q : ℚ)
  | vstr (s : String)
  | nan
  | inf
  | ninf
deriving DecidableEq

/-- The Python exceptions the module can raise: TypeError
(InvalidOperandKind in the spec) and KeyError (MissingBandError). -/
inductive PdError where
  | typeError
  | keyError (k : String)
deriving DecidableEq

/-- A pandas DataFrame: ordered association list from column name to column. -/
structure DataFrame where
  cols : List (String × List Value)
deriving DecidableEq

/-- A Python value passed as the `data` argument of a reducer: either a
DataFrame or a raw Python string (as in test_max_mag_strings). -/
inductive PdObject where
  | frame (df : DataFrame)
  | pystr (s : String)
deriving DecidableEq

instance exceptDecEq {ε α : Type} [DecidableEq ε] [DecidableEq α] :
    DecidableEq (Except ε α) := fun a b =>
  match a, b with
  | .ok x, .ok y =>
      if h : x = y then .isTrue (by rw [h])
      else .isFalse (fun hc => h (Except.ok.inj hc))
  | .error x, .error y =>
      if h : x = y then .isTrue (by rw [h])
      else .isFalse (fun hc => h (Except.error.inj hc))
  | .ok _, .error _ => .isFalse (fun hc => Except.noConfusion hc)
  | .error _, .ok _ => .isFalse (fun hc => Except.noConfusion hc)

def dfEmpty : DataFrame := ⟨[]⟩

def isNan : Value → Bool
  | .nan => true
  | _ => false

def isStr : Value → Bool
  | .vstr _ => true
  | _ => false

def isNum : Value → Bool
  | .num _ => true
  | _ => false

/-- Float-like values (the ones ordered by the numeric order). -/
def isNumLike : Value → Bool
  | .num _ => true
  | .inf => true
  | .ninf => true
  | _ => false

/-- Drop NaN entries (pandas reductions default to skipna=True). -/
def dropNan (c : List Value) : List Value :=
  c.filter (fun v => !(isNan v))

/-- Lexicographic max of two strings (Python `max` on str). -/
def smax (a b : String) : String := if a < b then b else a

/-- Lexicographic min of two strings (Python `min` on str). -/
def smin (a b : String) : String := if a < b then a else b

/-- Max of two float-like values (-inf < rationals < +inf). -/
def vmaxN : Value → Value → Value
  | .inf, _ => .inf
  | _, .inf => .inf
  | .ninf, b => b
  | a, .ninf => a
  | .num x, .num y => .num (max x y)
  | a, _ => a

/-- Min of two float-like values. -/
def vminN : Value → Value → Value
  | .ninf, _ => .ninf
  | _, .ninf => .ninf
  | .inf, b => b
  | a, .inf => a
  | .num x, .num y => .num (min x y)
  | a, _ => a

/-- Max of two string values. -/
def vmaxS : Value → Value → Value
  | .vstr a, .vstr b => .vstr (smax a b)
  | a, _ => a

/-- Min of two string values. -/
def vminS : Value → Value → Value
  | .vstr a, .vstr b => .vstr (smin a b)
  | a, _ => a

/-- IEEE-style addition on float-like values (strings concatenate, but the
string case is unreachable because `seriesMean` rejects strings first). -/
def valAdd : Value → Value → Value
  | .nan, _ => .nan
  | _, .nan => .nan
  | .inf, .ninf => .nan
  | .ninf, .inf => .nan
  | .inf, _ => .inf
  | _, .inf => .inf
  | .ninf, _ => .ninf
  | _, .ninf => .ninf
  | .num a, .num b => .num (a + b)
  | .vstr a, .vstr b => .vstr (a ++ b)
  | a, _ => a

/-- Divide a float-like value by a (positive) element count. -/
def divN : Value → Nat → Value
  | .num q, n => .num (q / (n : ℚ))
  | v, _ => v

/-- IEEE-style subtraction on float-like values. -/
def fsub : Value → Value → Value
  | .nan, _ => .nan
  | _, .nan => .nan
  | .inf, .inf => .nan
  | .ninf, .ninf => .nan
  | .inf, _ => .inf
  | .ninf, _ => .ninf
  | _, .inf => .ninf
  | _, .ninf => .inf
  | .num a, .num b => .num (a - b)
  | a, _ => a

/-- IEEE-style division on float-like values: 0/0 is NaN, q/0 is signed inf. -/
def fdiv : Value → Value → Value
  | .nan, _ => .nan
  | _, .nan => .nan
  | .inf, .inf => .nan
  | .inf, .ninf => .nan
  | .ninf, .inf => .nan
  | .ninf, .ninf => .nan
  | .inf, .num b => if b < 0 then .ninf else .inf
  | .ninf, .num b => if b < 0 then .inf else .ninf
  | .num _, .inf => .num 0
  | .num _, .ninf => .num 0
  | .num a, .num b =>
      if b = 0 then (if a = 0 then .nan else if a < 0 then .ninf else .inf)
      else .num (a / b)
  | a, _ => a

/-- Subtraction of cell values: TypeError whenever a string is involved
(pandas refuses `str - number`, `number - str` and `str - str`). -/
def valSub (a b : Value) : Except PdError Value :=
  if isStr a || isStr b then .error .typeError else .ok (fsub a b)

/-- Division of cell values: TypeError whenever a string is involved. -/
def valDiv (a b : Value) : Except PdError Value :=
  if isStr a || isStr b then .error .typeError else .ok (fdiv a b)

/-- `Series.max` after NaN removal: numeric columns use the numeric order,
all-string columns the lexicographic order, mixed columns raise TypeError. -/
def seriesMaxCore : List Value → Except PdError Value
  | [] => .ok .nan
  | v :: vs =>
      if (v :: vs).all isNumLike then .ok (vs.foldl vmaxN v)
      else if (v :: vs).all isStr then .ok (vs.foldl vmaxS v)
      else .error .typeError

/-- `Series.min` after NaN removal. -/
def seriesMinCore : List Value → Except PdError Value
  | [] => .ok .nan
  | v :: vs =>
      if (v :: vs).all isNumLike then .ok (vs.foldl vminN v)
      else if (v :: vs).all isStr then .ok (vs.foldl vminS v)
      else .error .typeError

/-- pandas `Series.max` (skipna). -/
def seriesMax (c : List Value) : Except PdError Value :=
  seriesMaxCore (dropNan c)

/-- pandas `Series.min` (skipna). -/
def seriesMin (c : List Value) : Except PdError Value :=
  seriesMinCore (dropNan c)

/-- Arithmetic mean of the non-NaN entries of an all-float-like column. -/
def seriesMeanCore : List Value → Value
  | [] => .nan
  | v :: vs => divN (vs.foldl valAdd v) (vs.length + 1)

/-- pandas `Series.mean`: TypeError on any string entry, otherwise the
mean of the non-NaN entries (NaN for an empty column). -/
def seriesMean (c : List Value) : Except PdError Value :=
  if c.any isStr then .error .typeError
  else .ok (seriesMeanCore (dropNan c))

/-- pandas `Series.fillna(v)`: replace exactly the NaN entries by `v`. -/
def seriesFillna (c : List Value) (v : Value) : List Value :=
  c.map (fun x => if x = Value.nan then v else x)

/-- Python `data[mag_col]`: column lookup on a DataFrame (KeyError when the
column is absent); TypeError when `data` is a raw string indexed by a string. -/
def getItem : PdObject → String → Except PdError (List Value)
  | .pystr _, _ => .error .typeError
  | .frame df, c =>
      match df.cols.lookup c with
      | some col => .ok col
      | none => .error (.keyError c)

/-- models.mean_mag: `data[mag_col].mean()`. -/
def mean_mag (data : PdObject) (mag_col : String) : Except PdError Value :=
  (getItem data mag_col).bind seriesMean

/-- models.max_mag: `data[mag_col].max()`. -/
def max_mag (data : PdObject) (mag_col : String) : Except PdError Value :=
  (getItem data mag_col).bind seriesMax

/-- models.min_mag: `data[mag_col].min()`. -/
def min_mag (data : PdObject) (mag_col : String) : Except PdError Value :=
  (getItem data mag_col).bind seriesMin

/-- One entry of the Stats result: the dict
`{"max": ..., "mean": ..., "min": ...}` built by calc_stats. -/
structure Stat where
  max : Value
  mean : Value
  min : Value
deriving DecidableEq

/-- `lc[b]` on the band-keyed collection: KeyError when the band is absent. -/
def lcGet (lc : List (String × DataFrame)) (b : String) : Except PdError DataFrame :=
  match lc.lookup b with
  | some df => .ok df
  | none => .error (.keyError b)

/-- models.calc_stats: for each band `b` in `bands`, look up `lc[b]` and
record max/mean/min of its magnitude column, in that evaluation order. -/
def calc_stats (lc : List (String × DataFrame)) :
    List String → String → Except PdError (List (String × Stat))
  | [], _ => .ok []
  | b :: bs, mag_col =>
    match lcGet lc b with
    | .error e => .error e
    | .ok sub =>
      match max_mag (.frame sub) mag_col with
      | .error e => .error e
      | .ok mx =>
        match mean_mag (.frame sub) mag_col with
        | .error e => .error e
        | .ok me =>
          match min_mag (.frame sub) mag_col with
          | .error e => .error e
          | .ok mi =>
            match calc_stats lc bs mag_col with
            | .error e => .error e
            | .ok rest => .ok ((b, ⟨mx, me, mi⟩) :: rest)

/-- Elementwise `series - scalar`. -/
def colSub : List Value → Value → Except PdError (List Value)
  | [], _ => .ok []
  | x :: xs, v =>
    match valSub x v with
    | .error e => .error e
    | .ok y =>
      match colSub xs v with
      | .error e => .error e
      | .ok ys => .ok (y :: ys)

/-- Elementwise `series / scalar`. -/
def colDiv : List Value → Value → Except PdError (List Value)
  | [], _ => .ok []
  | x :: xs, v =>
    match valDiv x v with
    | .error e => .error e
    | .ok y =>
      match colDiv xs v with
      | .error e => .error e
      | .ok ys => .ok (y :: ys)

/-- `df - scalar` on the column list: broadcast over every column. -/
def colsSub : List (String × List Value) → Value → Except PdError (List (String × List Value))
  | [], _ => .ok []
  | p :: ps, v =>
    match colSub p.2 v with
    | .error e => .error e
    | .ok c =>
      match colsSub ps v with
      | .error e => .error e
      | .ok rest => .ok ((p.1, c) :: rest)

/-- pandas `df - scalar`: a fresh DataFrame with the scalar subtracted from
every cell of every column (TypeError if any cell or the scalar is a string). -/
def dfSub (df : DataFrame) (v : Value) : Except PdError DataFrame :=
  (colsSub df.cols v).map (fun cs => ⟨cs⟩)

/-- models.normalize_lc, line by line:
`min = min_mag(df, mag_col)`; `max = max_mag((df - min), mag_col)`;
`lc = (df[mag_col] - min) / max`; `lc = lc.fillna(0)`. -/
def normalize_lc (df : DataFrame) (mag_col : String) : Except PdError (List Value) :=
  match min_mag (.frame df) mag_col with
  | .error e => .error e
  | .ok mn =>
    match dfSub df mn with
    | .error e => .error e
    | .ok shifted =>
      match max_mag (.frame shifted) mag_col with
      | .error e => .error e
      | .ok mx =>
        match getItem (.frame df) mag_col with
        | .error e => .error e
        | .ok col =>
          match colSub col mn with
          | .error e => .error e
          | .ok diff =>
            match colDiv diff mx with
            | .error e => .error e
            | .ok lc => .ok (seriesFillna lc (.num 0))

/-- A heap of DataFrame objects; Python variables hold references into it.
Used to state that the module never mutates an existing table in place. -/
abbrev Heap := List DataFrame

/-- Read the frame at a heap location (a dangling location reads as the
empty frame, on which every column lookup fails). -/
def heapRead : Heap → Nat → DataFrame
  | [], _ => dfEmpty
  | d :: _, 0 => d
  | _ :: hs, n+1 => heapRead hs n

/-- Heap-level embedding of normalize_lc.  The argument table lives at
location `dfLoc`; `df - min` allocates a fresh frame (appended at the end of
the heap), exactly as pandas binary arithmetic does; every read goes through
the heap, and no existing location is ever written. -/
def normalize_lc_heap (h : Heap) (dfLoc : Nat) (mag_col : String) :
    Except PdError (Heap × List Value) :=
  match min_mag (.frame (heapRead h dfLoc)) mag_col with
  | .error e => .error e
  | .ok mn =>
    match dfSub (heapRead h dfLoc) mn with
    | .error e => .error e
    | .ok shifted =>
      let h1 : Heap := h ++ [shifted]
      match max_mag (.frame (heapRead h1 (List.length h))) mag_col with
      | .error e => .error e
      | .ok mx =>
        match getItem (.frame (heapRead h1 dfLoc)) mag_col with
        | .error e => .error e
        | .ok col =>
          match colSub col mn with
          | .error e => .error e
          | .ok diff =>
            match colDiv diff mx with
            | .error e => .error e
            | .ok lc => .ok (h1, seriesFillna lc (.num 0))

/-- Heap-level embedding of min_mag: a pure reduction over the frame read
from the heap; returns the resulting heap alongside the value. -/
def min_mag_heap (h : Heap) (l : Nat) (c : String) : Except PdError (Heap × Value) :=
  (min_mag (.frame (heapRead h l)) c).map (fun v => (h, v))

/-- Heap-level embedding of max_mag. -/
def max_mag_heap (h : Heap) (l : Nat) (c : String) : Except PdError (Heap × Value) :=
  (max_mag (.frame (heapRead h l)) c).map (fun v => (h, v))

/-- Heap-level embedding of mean_mag. -/
def mean_mag_heap (h : Heap) (l : Nat) (c : String) : Except PdError (Heap × Value) :=
  (mean_mag (.frame (heapRead h l)) c).map (fun v => (h, v))

/-- An all-numeric rational table rendered as a DataFrame. -/
def toDF (rcols : List (String × List ℚ)) : DataFrame :=
  ⟨rcols.map (fun p => (p.1, p.2.map Value.num))⟩

/-- Subtract a rational from every cell of a rational table. -/
def subAll (rcols : List (String × List ℚ)) (a : ℚ) : List (String × List ℚ) :=
  rcols.map (fun p => (p.1, p.2.map (fun q => q - a)))

/-- Modelled from the spec: the literal two-step normalization algorithm of
section 4.4, on an all-numeric rational table.  Step 1: `minVal` is the
minimum of the column.  Step 2: build the shifted table by subtracting
`minVal` from the entire table.  Step 3: `maxVal` is the maximum of the
magnitude column of the shifted table.  Step 4: the result is
`(original column - minVal) / maxVal` elementwise, with the degenerate
division-by-zero case (constant column, `maxVal = 0`) remapped to 0.
`none` when the column is absent or empty (the contract presumes a
lightcurve with at least one observation). -/
def specTwoStepNormalize (rcols : List (String × List ℚ)) (c : String) : Option (List ℚ) :=
  match rcols.lookup c with
  | none => none
  | some qs =>
    match qs with
    | [] => none
    | q0 :: rest =>
      let minVal := rest.foldl min q0
      let shifted := subAll rcols minVal
      match shifted.lookup c with
      | none => none
      | some scol =>
        match scol with
        | [] => none
        | s0 :: srest =>
          let maxVal := srest.foldl max s0
          some ((q0 :: rest).map (fun q =>
            if maxVal = 0 then 0 else (q - minVal) / maxVal))

/-- Modelled from the spec: the single-pass `(col - min)/(max - min)` formula
of section 9, with the same degenerate remap to 0 as section 4.4 when the
denominator vanishes (constant column). -/
def specSinglePass (q0 : ℚ) (qs : List ℚ) : List ℚ :=
  (q0 :: qs).map (fun q =>
    if qs.foldl max q0 - qs.foldl min q0 = 0 then 0
    else (q - qs.foldl min q0) / (qs.foldl max q0 - qs.foldl min q0))

def exceptOk {ε α : Type} : Except ε α → Bool
  | .ok _ => true
  | .error _ => false

/-- Band `b` of `lc` is present and all three reducers succeed on it. -/
def bandOk (lc : List (String × DataFrame)) (mag_col b : String) : Bool :=
  match lc.lookup b with
  | some sub =>
      exceptOk (max_mag (.frame sub) mag_col) &&
      exceptOk (mean_mag (.frame sub) mag_col) &&
      exceptOk (min_mag (.frame sub) mag_col)
  | none => false

/-- The 3x3 test table of the spec/tests: rows [[1,5,3],[7,8,9],[3,4,1]],
columns a,b,c (stored column-wise). -/
def rcolsEx : List (String × List ℚ) :=
  [("a", [1, 7, 3]), ("b", [5, 8, 4]), ("c", [3, 9, 1])]

def dfEx : DataFrame := toDF rcolsEx

/-- A single-column table whose column "b" holds text. -/
def dfStr : DataFrame := ⟨[("b", [.vstr "apple", .vstr "banana"])]⟩

/-- A one-row table with a text band column and a constant numeric
magnitude column. -/
def dfMix : DataFrame := ⟨[("band", [.vstr "g"]), ("mag", [.num 5])]⟩

/-- A two-row table with a text band column and a non-constant numeric
magnitude column. -/
def dfMixNC : DataFrame :=
  ⟨[("band", [.vstr "g", .vstr "g"]), ("mag", [.num 1, .num 2])]⟩

def lcEx : List (String × DataFrame) := [("g", dfEx)]

/-! ### Computation lemmas for the numeric and string paths -/

theorem lookupMapPair {α β : Type} (f : α → β) (l : List (String × α)) (c : String) :
    (l.map (fun p => (p.1, f p.2))).lookup c = (l.lookup c).map f := by
  induction l with
  | nil => rfl
  | cons p l ih =>
    obtain ⟨k, v⟩ := p
    simp only [List.map_cons, List.lookup]
    cases hb : c == k
    · simpa [hb] using ih
    · simp [hb]

theorem dropNan_map_num (qs : List ℚ) :
    dropNan (qs.map Value.num) = qs.map Value.num := by
  induction qs with
  | nil => rfl
  | cons q qs _ => simp [dropNan, isNan]

theorem dropNan_map_vstr (ss : List String) :
    dropNan (ss.map Value.vstr) = ss.map Value.vstr := by
  induction ss with
  | nil => rfl
  | cons s ss _ => simp [dropNan, isNan]

theorem all_isNumLike_map_num (qs : List ℚ) :
    (qs.map Value.num).all isNumLike = true := by
  simp [List.all_eq_true, isNumLike]

theorem all_isStr_map_vstr (ss : List String) :
    (ss.map Value.vstr).all isStr = true := by
  simp [List.all_eq_true, isStr]

theorem foldl_vminN_map_num (qs : List ℚ) : ∀ q : ℚ,
    (qs.map Value.num).foldl vminN (.num q) = .num (qs.foldl min q) := by
  induction qs with
  | nil => intro q; rfl
  | cons a l ih =>
    intro q
    simp only [List.map_cons, List.foldl_cons]
    exact ih (min q a)

theorem foldl_vmaxN_map_num (qs : List ℚ) : ∀ q : ℚ,
    (qs.map Value.num).foldl vmaxN (.num q) = .num (qs.foldl max q) := by
  induction qs with
  | nil => intro q; rfl
  | cons a l ih =>
    intro q
    simp only [List.map_cons, List.foldl_cons]
    exact ih (max q a)

theorem foldl_vminS_map_vstr (ss : List String) : ∀ s : String,
    (ss.map Value.vstr).foldl vminS (.vstr s) = .vstr (ss.foldl smin s) := by
  induction ss with
  | nil => intro s; rfl
  | cons a l ih =>
    intro s
    simp only [List.map_cons, List.foldl_cons]
    exact ih (smin s a)

theorem foldl_vmaxS_map_vstr (ss : List String) : ∀ s : String,
    (ss.map Value.vstr).foldl vmaxS (.vstr s) = .vstr (ss.foldl smax s) := by
  induction ss with
  | nil => intro s; rfl
  | cons a l ih =>
    intro s
    simp only [List.map_cons, List.foldl_cons]
    exact ih (smax s a)

theorem foldl_valAdd_map_num (qs : List ℚ) : ∀ q : ℚ,
    (qs.map Value.num).foldl valAdd (.num q) = .num (qs.foldl (fun a b => a + b) q) := by
  induction qs with
  | nil => intro q; rfl
  | cons a l ih =>
    intro q
    simp only [List.map_cons, List.foldl_cons]
    exact ih (q + a)

theorem foldl_add_eq_sum (qs : List ℚ) : ∀ q : ℚ,
    qs.foldl (fun a b => a + b) q = q + qs.sum := by
  induction qs with
  | nil => intro q; simp
  | cons a l ih =>
    intro q
    simp only [List.foldl_cons, List.sum_cons]
    rw [ih (q + a)]
    ring

theorem seriesMin_map_num (q0 : ℚ) (qs : List ℚ) :
    seriesMin ((q0 :: qs).map Value.num) = .ok (.num (qs.foldl min q0)) := by
  have hd : dropNan ((q0 :: qs).map Value.num) = .num q0 :: qs.map Value.num := by
    simpa using dropNan_map_num (q0 :: qs)
  rw [seriesMin, hd, seriesMinCore]
  rw [if_pos (by simpa using all_isNumLike_map_num (q0 :: qs))]
  rw [foldl_vminN_map_num]

theorem seriesMax_map_num (q0 : ℚ) (qs : List ℚ) :
    seriesMax ((q0 :: qs).map Value.num) = .ok (.num (qs.foldl max q0)) := by
  have hd : dropNan ((q0 :: qs).map Value.num) = .num q0 :: qs.map Value.num := by
    simpa using dropNan_map_num (q0 :: qs)
  rw [seriesMax, hd, seriesMaxCore]
  rw [if_pos (by simpa using all_isNumLike_map_num (q0 :: qs))]
  rw [foldl_vmaxN_map_num]

theorem any_isStr_map_num (qs : List ℚ) : (qs.map Value.num).any isStr = false := by
  simp [List.any_eq_false, isStr]

theorem seriesMean_map_num (q0 : ℚ) (qs : List ℚ) :
    seriesMean ((q0 :: qs).map Value.num) =
      .ok (.num ((q0 + qs.sum) / ((qs.length : ℚ) + 1))) := by
  rw [seriesMean, if_neg (by simp [List.any_eq_false, isStr])]
  have hd : dropNan ((q0 :: qs).map Value.num) = .num q0 :: qs.map Value.num := by
    simpa using dropNan_map_num (q0 :: qs)
  rw [hd, seriesMeanCore]
  rw [foldl_valAdd_map_num, foldl_add_eq_sum]
  simp only [divN, List.length_map]
  norm_num

/-! ### Bounds and membership for foldl min / foldl max -/

theorem foldlMin_le_init (qs : List ℚ) : ∀ q0 : ℚ, qs.foldl min q0 ≤ q0 := by
  induction qs with
  | nil => intro q0; exact le_refl _
  | cons a l ih =>
    intro q0
    exact le_trans (ih (min q0 a)) (min_le_left _ _)

theorem foldlMin_le_mem (qs : List ℚ) : ∀ (q0 q : ℚ), q ∈ qs → qs.foldl min q0 ≤ q := by
  induction qs with
  | nil => intro _ _ h; cases h
  | cons a l ih =>
    intro q0 q hq
    rcases List.mem_cons.mp hq with h | h
    · subst h
      exact le_trans (foldlMin_le_init l _) (min_le_right _ _)
    · exact ih _ _ h

theorem foldlMin_mem (qs : List ℚ) : ∀ q0 : ℚ,
    qs.foldl min q0 = q0 ∨ qs.foldl min q0 ∈ qs := by
  induction qs with
  | nil => intro q0; exact Or.inl rfl
  | cons a l ih =>
    intro q0
    rcases ih (min q0 a) with h | h
    · rcases min_choice q0 a with h2 | h2
      · exact Or.inl (by rw [List.foldl_cons, h, h2])
      · exact Or.inr (by rw [List.foldl_cons, h, h2]; exact List.mem_cons_self _ _)
    · exact Or.inr (List.mem_cons_of_mem _ h)

theorem foldlMax_init_le (qs : List ℚ) : ∀ q0 : ℚ, q0 ≤ qs.foldl max q0 := by
  induction qs with
  | nil => intro q0; exact le_refl _
  | cons a l ih =>
    intro q0
    exact le_trans (le_max_left _ _) (ih (max q0 a))

theorem foldlMax_mem_le (qs : List ℚ) : ∀ (q0 q : ℚ), q ∈ qs → q ≤ qs.foldl max q0 := by
  induction qs with
  | nil => intro _ _ h; cases h
  | cons a l ih =>
    intro q0 q hq
    rcases List.mem_cons.mp hq with h | h
    · subst h
      exact le_trans (le_max_right _ _) (foldlMax_init_le l _)
    · exact ih _ _ h

theorem foldlMax_mem (qs : List ℚ) : ∀ q0 : ℚ,
    qs.foldl max q0 = q0 ∨ qs.foldl max q0 ∈ qs := by
  induction qs with
  | nil => intro q0; exact Or.inl rfl
  | cons a l ih =>
    intro q0
    rcases ih (max q0 a) with h | h
    · rcases max_choice q0 a with h2 | h2
      · exact Or.inl (by rw [List.foldl_cons, h, h2])
      · exact Or.inr (by rw [List.foldl_cons, h, h2]; exact List.mem_cons_self _ _)
    · exact Or.inr (List.mem_cons_of_mem _ h)

/-- Subtracting a constant commutes with the running maximum. -/
theorem foldlMax_sub (a : ℚ) (qs : List ℚ) : ∀ q0 : ℚ,
    (qs.map (fun q => q - a)).foldl max (q0 - a) = qs.foldl max q0 - a := by
  induction qs with
  | nil => intro q0; rfl
  | cons b l ih =>
    intro q0
    simp only [List.map_cons, List.foldl_cons]
    rw [max_sub_sub_right q0 b a]
    exact ih (max q0 b)

theorem mulLen_le_sum (l : List ℚ) : ∀ a : ℚ, (∀ x ∈ l, a ≤ x) →
    a * l.length ≤ l.sum := by
  induction l with
  | nil => intro a _; simp
  | cons x l ih =>
    intro a h
    have hx : a ≤ x := h x (List.mem_cons_self _ _)
    have hrest := ih a (fun y hy => h y (List.mem_cons_of_mem _ hy))
    simp only [List.sum_cons, List.length_cons]
    push_cast
    nlinarith [hrest, hx]

theorem sum_le_mulLen (l : List ℚ) : ∀ b : ℚ, (∀ x ∈ l, x ≤ b) →
    l.sum ≤ b * l.length := by
  induction l with
  | nil => intro b _; simp
  | cons x l ih =>
    intro b h
    have hx : x ≤ b := h x (List.mem_cons_self _ _)
    have hrest := ih b (fun y hy => h y (List.mem_cons_of_mem _ hy))
    simp only [List.sum_cons, List.length_cons]
    push_cast
    nlinarith [hrest, hx]

/-! ### Column arithmetic on numeric data -/

theorem colSub_map_num (a : ℚ) (qs : List ℚ) :
    colSub (qs.map Value.num) (.num a) =
      .ok ((qs.map (fun q => q - a)).map Value.num) := by
  induction qs with
  | nil => rfl
  | cons q l ih =>
    simp only [List.map_cons, colSub]
    rw [show valSub (Value.num q) (Value.num a) = .ok (.num (q - a)) from rfl, ih]

theorem colDiv_map_num (b : ℚ) (hb : b ≠ 0) (qs : List ℚ) :
    colDiv (qs.map Value.num) (.num b) =
      .ok (qs.map (fun q => Value.num (q / b))) := by
  induction qs with
  | nil => rfl
  | cons q l ih =>
    have h1 : valDiv (Value.num q) (Value.num b) = .ok (.num (q / b)) := by
      simp [valDiv, isStr, fdiv, hb]
    simp only [List.map_cons, colDiv]
    rw [h1, ih]

theorem colDiv_zeros (n : Nat) :
    colDiv (List.replicate n (Value.num 0)) (.num 0) =
      .ok (List.replicate n Value.nan) := by
  induction n with
  | zero => rfl
  | succ m ih =>
    have h1 : valDiv (Value.num 0) (Value.num 0) = .ok Value.nan := by
      simp [valDiv, isStr, fdiv]
    simp only [List.replicate_succ, colDiv]
    rw [h1, ih]

theorem map_const_of_all {α β : Type} (f : α → β) (b : β) (l : List α)
    (h : ∀ x ∈ l, f x = b) : l.map f = List.replicate l.length b := by
  induction l with
  | nil => rfl
  | cons x l ih =>
    simp only [List.map_cons, List.length_cons, List.replicate_succ]
    rw [h x (List.mem_cons_self _ _), ih (fun y hy => h y (List.mem_cons_of_mem _ hy))]

theorem fillna_no_nan (l : List Value) (h : ∀ v ∈ l, v ≠ Value.nan) :
    seriesFillna l (.num 0) = l := by
  induction l with
  | nil => rfl
  | cons v l ih =>
    simp only [seriesFillna, List.map_cons]
    rw [if_neg (h v (List.mem_cons_self _ _))]
    have := ih (fun w hw => h w (List.mem_cons_of_mem _ hw))
    simp only [seriesFillna] at this
    rw [this]

theorem fillna_replicate_nan (n : Nat) :
    seriesFillna (List.replicate n Value.nan) (.num 0) =
      List.replicate n (Value.num 0) := by
  simp [seriesFillna, List.map_replicate]

theorem colsSub_toDF (a : ℚ) (rcols : List (String × List ℚ)) :
    colsSub (toDF rcols).cols (.num a) = .ok ((toDF (subAll rcols a)).cols) := by
  induction rcols with
  | nil => rfl
  | cons p l ih =>
    simp only [toDF, subAll, List.map_cons] at ih ⊢
    simp only [colsSub]
    rw [colSub_map_num, ih]

theorem dfSub_toDF (a : ℚ) (rcols : List (String × List ℚ)) :
    dfSub (toDF rcols) (.num a) = .ok (toDF (subAll rcols a)) := by
  rw [dfSub, colsSub_toDF]
  rfl

theorem lookup_toDF (rcols : List (String × List ℚ)) (c : String) :
    (toDF rcols).cols.lookup c = (rcols.lookup c).map (fun qs => qs.map Value.num) := by
  exact lookupMapPair (fun qs => qs.map Value.num) rcols c

theorem lookup_subAll (a : ℚ) (rcols : List (String × List ℚ)) (c : String) :
    (subAll rcols a).lookup c = (rcols.lookup c).map (fun qs => qs.map (fun q => q - a)) := by
  exact lookupMapPair (fun qs => qs.map (fun q => q - a)) rcols c

theorem getItem_toDF_some (rcols : List (String × List ℚ)) (c : String)
    (qs : List ℚ) (h : rcols.lookup c = some qs) :
    getItem (.frame (toDF rcols)) c = .ok (qs.map Value.num) := by
  simp only [getItem, lookup_toDF, h]
  rfl

theorem exbind_ok {ε α β : Type} (x : α) (f : α → Except ε β) :
    (Except.ok x : Except ε α).bind f = f x := rfl

theorem min_mag_num (df : DataFrame) (c : String) (q0 : ℚ) (qs : List ℚ)
    (h : getItem (.frame df) c = .ok ((q0 :: qs).map Value.num)) :
    min_mag (.frame df) c = .ok (.num (qs.foldl min q0)) := by
  rw [min_mag, h, exbind_ok]
  exact seriesMin_map_num q0 qs

theorem max_mag_num (df : DataFrame) (c : String) (q0 : ℚ) (qs : List ℚ)
    (h : getItem (.frame df) c = .ok ((q0 :: qs).map Value.num)) :
    max_mag (.frame df) c = .ok (.num (qs.foldl max q0)) := by
  rw [max_mag, h, exbind_ok]
  exact seriesMax_map_num q0 qs

theorem mean_mag_num (df : DataFrame) (c : String) (q0 : ℚ) (qs : List ℚ)
    (h : getItem (.frame df) c = .ok ((q0 :: qs).map Value.num)) :
    mean_mag (.frame df) c = .ok (.num ((q0 + qs.sum) / ((qs.length : ℚ) + 1))) := by
  rw [mean_mag, h, exbind_ok]
  exact seriesMean_map_num q0 qs

/-- Closed form of normalize_lc on an all-numeric table with a non-empty
magnitude column: the two-step result, with the degenerate constant column
mapped to all zeros by fillna. -/
theorem normalize_num (rcols : List (String × List ℚ)) (c : String) (q0 : ℚ) (qs : List ℚ)
    (h : rcols.lookup c = some (q0 :: qs)) :
    normalize_lc (toDF rcols) c = .ok (((q0 :: qs).map (fun q =>
      if qs.foldl max q0 - qs.foldl min q0 = 0 then (0:ℚ)
      else (q - qs.foldl min q0) / (qs.foldl max q0 - qs.foldl min q0))).map Value.num) := by
  have hget : getItem (.frame (toDF rcols)) c = .ok ((q0 :: qs).map Value.num) :=
    getItem_toDF_some rcols c _ h
  have hmin : min_mag (.frame (toDF rcols)) c = .ok (.num (qs.foldl min q0)) :=
    min_mag_num _ _ _ _ hget
  have hsub := dfSub_toDF (qs.foldl min q0) rcols
  have hlook2 : (subAll rcols (qs.foldl min q0)).lookup c =
      some ((q0 :: qs).map (fun q => q - qs.foldl min q0)) := by
    rw [lookup_subAll, h]
    rfl
  have hget2 : getItem (.frame (toDF (subAll rcols (qs.foldl min q0)))) c =
      .ok (((q0 :: qs).map (fun q => q - qs.foldl min q0)).map Value.num) :=
    getItem_toDF_some _ c _ hlook2
  have hmax : max_mag (.frame (toDF (subAll rcols (qs.foldl min q0)))) c =
      .ok (.num (qs.foldl max q0 - qs.foldl min q0)) := by
    rw [max_mag, hget2, exbind_ok]
    have e1 : ((q0 :: qs).map (fun q => q - qs.foldl min q0)) =
        (q0 - qs.foldl min q0) :: qs.map (fun q => q - qs.foldl min q0) := by
      simp
    rw [e1, seriesMax_map_num, foldlMax_sub]
  have hcolsub : colSub ((q0 :: qs).map Value.num) (Value.num (qs.foldl min q0)) =
      .ok (((q0 :: qs).map (fun q => q - qs.foldl min q0)).map Value.num) :=
    colSub_map_num _ _
  simp only [normalize_lc, hmin, hsub, hmax, hget, hcolsub]
  by_cases hd : qs.foldl max q0 - qs.foldl min q0 = 0
  · have hall : ∀ q ∈ q0 :: qs, q - qs.foldl min q0 = 0 := by
      intro q hq
      have h1 : qs.foldl min q0 ≤ q := by
        rcases List.mem_cons.mp hq with h2 | h2
        · rw [h2]; exact foldlMin_le_init qs q0
        · exact foldlMin_le_mem qs q0 q h2
      have h2 : q ≤ qs.foldl max q0 := by
        rcases List.mem_cons.mp hq with h3 | h3
        · rw [h3]; exact foldlMax_init_le qs q0
        · exact foldlMax_mem_le qs q0 q h3
      linarith
    have hzero : (q0 :: qs).map (fun q => q - qs.foldl min q0) =
        List.replicate (q0 :: qs).length (0:ℚ) :=
      map_const_of_all _ 0 _ hall
    simp only [hd, hzero, List.map_replicate, colDiv_zeros, fillna_replicate_nan]
    simp [List.replicate_succ]
  · have hdiv := colDiv_map_num _ hd ((q0 :: qs).map (fun q => q - qs.foldl min q0))
    simp only [hdiv]
    rw [fillna_no_nan]
    · simp only [List.map_map, if_neg hd]
      rfl
    · intro v hv
      obtain ⟨q, hq, rfl⟩ := List.mem_map.mp hv
      simp

theorem foldl_min_replicate (v : ℚ) : ∀ n : Nat, (List.replicate n v).foldl min v = v := by
  intro n
  induction n with
  | zero => rfl
  | succ m ih => simp only [List.replicate_succ, List.foldl_cons, min_self]; exact ih

theorem foldl_max_replicate (v : ℚ) : ∀ n : Nat, (List.replicate n v).foldl max v = v := by
  intro n
  induction n with
  | zero => rfl
  | succ m ih => simp only [List.replicate_succ, List.foldl_cons, max_self]; exact ih

/-- Claim C3: for every table with a non-empty numeric column, the three
reducers succeed and min_mag <= mean_mag <= max_mag. -/
theorem claim3_min_mean_max (df : DataFrame) (c : String) (q0 : ℚ) (qs : List ℚ)
    (h : getItem (.frame df) c = .ok ((q0 :: qs).map Value.num)) :
    ∃ a m b : ℚ,
      min_mag (.frame df) c = .ok (.num a) ∧
      mean_mag (.frame df) c = .ok (.num m) ∧
      max_mag (.frame df) c = .ok (.num b) ∧
      a ≤ m ∧ m ≤ b := by
  refine ⟨qs.foldl min q0, (q0 + qs.sum) / ((qs.length : ℚ) + 1), qs.foldl max q0,
    min_mag_num _ _ _ _ h, mean_mag_num _ _ _ _ h, max_mag_num _ _ _ _ h, ?_, ?_⟩
  · have h1 : qs.foldl min q0 ≤ q0 := foldlMin_le_init qs q0
    have h2 : (qs.foldl min q0) * qs.length ≤ qs.sum :=
      mulLen_le_sum qs _ (fun x hx => foldlMin_le_mem qs q0 x hx)
    rw [le_div_iff₀ (by positivity : (0:ℚ) < (qs.length : ℚ) + 1)]
    nlinarith [h1, h2]
  · have h1 : q0 ≤ qs.foldl max q0 := foldlMax_init_le qs q0
    have h2 : qs.sum ≤ (qs.foldl max q0) * qs.length :=
      sum_le_mulLen qs _ (fun x hx => foldlMax_mem_le qs q0 x hx)
    rw [div_le_iff₀ (by positivity : (0:ℚ) < (qs.length : ℚ) + 1)]
    nlinarith [h1, h2]

/-- Claim C3 witness: the 3x3 test table, column a, holds 1 <= 11/3 <= 7. -/
theorem claim3_witness :
    ∃ a m b : ℚ,
      min_mag (.frame dfEx) "a" = .ok (.num a) ∧
      mean_mag (.frame dfEx) "a" = .ok (.num m) ∧
      max_mag (.frame dfEx) "a" = .ok (.num b) ∧
      a ≤ m ∧ m ≤ b :=
  claim3_min_mean_max dfEx "a" 1 [7, 3] (by with_unfolding_all decide)

/-- Claim C8: mean_mag of a constant column returns the repeated value,
exactly. -/
theorem claim8_mean_constant (df : DataFrame) (c : String) (v : ℚ) (n : Nat)
    (h : getItem (.frame df) c = .ok ((List.replicate (n+1) v).map Value.num)) :
    mean_mag (.frame df) c = .ok (.num v) := by
  rw [List.replicate_succ] at h
  rw [mean_mag_num _ _ _ _ h]
  have he : (v + (List.replicate n v).sum) / (((List.replicate n v).length : ℚ) + 1) = v := by
    rw [List.sum_replicate, List.length_replicate, nsmul_eq_mul]
    rw [div_eq_iff (by positivity : ((n:ℚ) + 1) ≠ 0)]
    ring
  rw [he]

/-- Claim C8 witness: a column of three copies of 5 has mean exactly 5. -/
theorem claim8_witness :
    mean_mag (.frame (toDF [("m", [5, 5, 5])])) "m" = .ok (.num 5) :=
  claim8_mean_constant (toDF [("m", [5, 5, 5])]) "m" 5 2 (by with_unfolding_all decide)

/-- Closed form of the literal two-step algorithm of the spec. -/
theorem specTwoStep_eq (rcols : List (String × List ℚ)) (c : String) (q0 : ℚ) (qs : List ℚ)
    (h : rcols.lookup c = some (q0 :: qs)) :
    specTwoStepNormalize rcols c = some ((q0 :: qs).map (fun q =>
      if qs.foldl max q0 - qs.foldl min q0 = 0 then (0:ℚ)
      else (q - qs.foldl min q0) / (qs.foldl max q0 - qs.foldl min q0))) := by
  have hlook2 : (subAll rcols (qs.foldl min q0)).lookup c =
      some ((q0 - qs.foldl min q0) :: qs.map (fun q => q - qs.foldl min q0)) := by
    rw [lookup_subAll, h]
    rfl
  simp only [specTwoStepNormalize, h, hlook2, foldlMax_sub]

/-- Claim C1: on an all-numeric table with a non-empty magnitude column,
normalize_lc returns exactly the result of the literal two-step algorithm of
the spec (shift the whole table by the column minimum, take the maximum of
the shifted magnitude column as denominator, divide the original column
shifted by the minimum, remap the degenerate case to 0). -/
theorem claim1_two_step (rcols : List (String × List ℚ)) (c : String) (q0 : ℚ) (qs : List ℚ)
    (h : rcols.lookup c = some (q0 :: qs)) :
    ∃ out : List ℚ, specTwoStepNormalize rcols c = some out ∧
      normalize_lc (toDF rcols) c = .ok (out.map Value.num) :=
  ⟨_, specTwoStep_eq rcols c q0 qs h, normalize_num rcols c q0 qs h⟩

/-- Claim C1 witness: the two-step algorithm and normalize_lc agree on the
3x3 test table, column a. -/
theorem claim1_witness :
    ∃ out : List ℚ, specTwoStepNormalize rcolsEx "a" = some out ∧
      normalize_lc (toDF rcolsEx) "a" = .ok (out.map Value.num) :=
  claim1_two_step rcolsEx "a" 1 [7, 3] (by with_unfolding_all decide)

/-- Claim C7: the two-step denominator max(column - min) equals the
single-pass denominator max(column) - min, and normalize_lc agrees with the
single-pass (col - min)/(max - min) formula. -/
theorem claim7_single_pass (rcols : List (String × List ℚ)) (c : String) (q0 : ℚ) (qs : List ℚ)
    (h : rcols.lookup c = some (q0 :: qs)) :
    seriesMax (((q0 :: qs).map (fun q => q - qs.foldl min q0)).map Value.num) =
      .ok (.num (qs.foldl max q0 - qs.foldl min q0)) ∧
    normalize_lc (toDF rcols) c = .ok ((specSinglePass q0 qs).map Value.num) := by
  constructor
  · have e1 : (q0 :: qs).map (fun q => q - qs.foldl min q0) =
        (q0 - qs.foldl min q0) :: qs.map (fun q => q - qs.foldl min q0) := by
      simp
    rw [e1, seriesMax_map_num, foldlMax_sub]
  · rw [normalize_num rcols c q0 qs h]
    rfl

/-- Claim C7 witness: on the 3x3 test table, column a, the shifted maximum
is 7 - 1 = 6 and both formulas agree. -/
theorem claim7_witness :
    seriesMax ((([1, 7, 3] : List ℚ).map (fun q => q - ([7, 3] : List ℚ).foldl min 1)).map Value.num) =
      .ok (.num (([7, 3] : List ℚ).foldl max 1 - ([7, 3] : List ℚ).foldl min 1)) ∧
    normalize_lc (toDF rcolsEx) "a" = .ok ((specSinglePass 1 [7, 3]).map Value.num) :=
  claim7_single_pass rcolsEx "a" 1 [7, 3] (by with_unfolding_all decide)

/-- Claim C6, counterexample to the unrestricted claim: a non-empty table
with a constant numeric magnitude column but a text band column makes
normalize_lc raise TypeError (the table-wide subtraction hits the text
column), not return a sequence of zeros. -/
theorem claim6_counterexample :
    normalize_lc dfMix "mag" = .error .typeError ∧
      normalize_lc dfMix "mag" ≠ .ok [Value.num 0] := by
  with_unfolding_all decide

/-- Claim C6, amended: on an all-numeric non-empty table whose magnitude
column is constant, normalize_lc returns 0 for every row (the 0/0 entries
are remapped by fillna, never left NaN). -/
theorem claim6_constant_zeros (rcols : List (String × List ℚ)) (c : String) (v : ℚ) (n : Nat)
    (h : rcols.lookup c = some (List.replicate (n+1) v)) :
    normalize_lc (toDF rcols) c = .ok (List.replicate (n+1) (Value.num 0)) := by
  rw [List.replicate_succ] at h
  have hm := normalize_num rcols c v (List.replicate n v) h
  simp only [foldl_min_replicate, foldl_max_replicate, sub_self, ite_true] at hm
  rw [hm]
  have h1 : (v :: List.replicate n v).map (fun _ : ℚ => (0:ℚ)) =
      List.replicate (n+1) (0:ℚ) := by
    simpa using map_const_of_all (fun _ : ℚ => (0:ℚ)) 0
      (v :: List.replicate n v) (fun _ _ => rfl)
  rw [h1, List.map_replicate]

/-- Claim C6 witness: a 3-row constant column [2,2,2] normalizes to
[0,0,0]. -/
theorem claim6_witness :
    normalize_lc (toDF [("m", [2, 2, 2])]) "m" = .ok (List.replicate 3 (Value.num 0)) :=
  claim6_constant_zeros [("m", [2, 2, 2])] "m" 2 2 (by with_unfolding_all decide)

/-- Claim C10, amended: on an all-numeric table whose non-empty magnitude column is
not constant, normalize_lc returns one value per row in the original row
order, every value lies in [0,1], and 0 and 1 are both attained. -/
theorem claim10_unit_range (rcols : List (String × List ℚ)) (c : String) (q0 : ℚ) (qs : List ℚ)
    (h : rcols.lookup c = some (q0 :: qs)) (hnc : ∃ q ∈ qs, q ≠ q0) :
    ∃ mn mx : ℚ,
      min_mag (.frame (toDF rcols)) c = .ok (.num mn) ∧
      max_mag (.frame (toDF rcols)) c = .ok (.num mx) ∧
      normalize_lc (toDF rcols) c =
        .ok ((q0 :: qs).map (fun q => Value.num ((q - mn) / (mx - mn)))) ∧
      (∀ q ∈ q0 :: qs, 0 ≤ (q - mn) / (mx - mn) ∧ (q - mn) / (mx - mn) ≤ 1) ∧
      (∃ q ∈ q0 :: qs, (q - mn) / (mx - mn) = 0) ∧
      (∃ q ∈ q0 :: qs, (q - mn) / (mx - mn) = 1) := by
  obtain ⟨qq, hqq, hne⟩ := hnc
  have hb1 : qs.foldl min q0 ≤ q0 := foldlMin_le_init qs q0
  have hb2 : q0 ≤ qs.foldl max q0 := foldlMax_init_le qs q0
  have hb3 : qs.foldl min q0 ≤ qq := foldlMin_le_mem qs q0 qq hqq
  have hb4 : qq ≤ qs.foldl max q0 := foldlMax_mem_le qs q0 qq hqq
  have hlt : qs.foldl min q0 < qs.foldl max q0 := by
    rcases lt_or_ge (qs.foldl min q0) (qs.foldl max q0) with h1 | h1
    · exact h1
    · exfalso; apply hne; linarith
  have hdpos : 0 < qs.foldl max q0 - qs.foldl min q0 := by linarith
  have hd : qs.foldl max q0 - qs.foldl min q0 ≠ 0 := ne_of_gt hdpos
  have hget := getItem_toDF_some rcols c _ h
  refine ⟨qs.foldl min q0, qs.foldl max q0,
    min_mag_num _ _ _ _ hget, max_mag_num _ _ _ _ hget, ?_, ?_, ?_, ?_⟩
  · rw [normalize_num rcols c q0 qs h]
    simp only [if_neg hd, List.map_map]
    rfl
  · intro q hq
    have hq1 : qs.foldl min q0 ≤ q := by
      rcases List.mem_cons.mp hq with h2 | h2
      · rw [h2]; exact hb1
      · exact foldlMin_le_mem qs q0 q h2
    have hq2 : q ≤ qs.foldl max q0 := by
      rcases List.mem_cons.mp hq with h2 | h2
      · rw [h2]; exact hb2
      · exact foldlMax_mem_le qs q0 q h2
    constructor
    · exact div_nonneg (by linarith) (le_of_lt hdpos)
    · rw [div_le_one hdpos]; linarith
  · rcases foldlMin_mem qs q0 with hmem | hmem
    · exact ⟨q0, List.mem_cons_self _ _, by rw [hmem, sub_self, zero_div]⟩
    · exact ⟨qs.foldl min q0, List.mem_cons_of_mem _ hmem, by rw [sub_self, zero_div]⟩
  · rcases foldlMax_mem qs q0 with hmem | hmem
    · refine ⟨q0, List.mem_cons_self _ _, ?_⟩
      rw [hmem] at hd ⊢
      exact div_self hd
    · exact ⟨qs.foldl max q0, List.mem_cons_of_mem _ hmem, div_self hd⟩

/-- Claim C10 witness: on the 3x3 test table, column a with values 1,7,3. -/
theorem claim10_witness :
    ∃ mn mx : ℚ,
      min_mag (.frame (toDF rcolsEx)) "a" = .ok (.num mn) ∧
      max_mag (.frame (toDF rcolsEx)) "a" = .ok (.num mx) ∧
      normalize_lc (toDF rcolsEx) "a" =
        .ok ((([1, 7, 3] : List ℚ)).map (fun q => Value.num ((q - mn) / (mx - mn)))) ∧
      (∀ q ∈ ([1, 7, 3] : List ℚ), 0 ≤ (q - mn) / (mx - mn) ∧ (q - mn) / (mx - mn) ≤ 1) ∧
      (∃ q ∈ ([1, 7, 3] : List ℚ), (q - mn) / (mx - mn) = 0) ∧
      (∃ q ∈ ([1, 7, 3] : List ℚ), (q - mn) / (mx - mn) = 1) :=
  claim10_unit_range rcolsEx "a" 1 [7, 3] (by with_unfolding_all decide)
    (by with_unfolding_all decide)

theorem exceptOk_true {ε α : Type} {e : Except ε α} (h : exceptOk e = true) :
    ∃ v, e = .ok v := by
  cases e with
  | ok v => exact ⟨v, rfl⟩
  | error e => simp [exceptOk] at h

/-- Claim C2: whenever calc_stats succeeds, its result maps each band name,
in input order, to the record of exactly max_mag, mean_mag and min_mag of
the sub-table of that band. -/
theorem claim2_calc_stats (lc : List (String × DataFrame)) (bands : List String)
    (mag_col : String) (res : List (String × Stat))
    (h : calc_stats lc bands mag_col = .ok res) :
    res.length = bands.length ∧
    ∀ (i : Nat) (b : String), bands[i]? = some b →
      ∃ sub mx me mi, lcGet lc b = .ok sub ∧
        max_mag (.frame sub) mag_col = .ok mx ∧
        mean_mag (.frame sub) mag_col = .ok me ∧
        min_mag (.frame sub) mag_col = .ok mi ∧
        res[i]? = some (b, ⟨mx, me, mi⟩) := by
  induction bands generalizing res with
  | nil =>
    simp only [calc_stats] at h
    injection h with h1
    subst h1
    refine ⟨rfl, ?_⟩
    intro i b hib
    simp at hib
  | cons b1 bs ih =>
    rw [calc_stats] at h
    cases hsub : lcGet lc b1 with
    | error e => simp [hsub] at h
    | ok sub =>
      simp only [hsub] at h
      cases hmx : max_mag (.frame sub) mag_col with
      | error e => simp [hmx] at h
      | ok mx =>
        simp only [hmx] at h
        cases hme : mean_mag (.frame sub) mag_col with
        | error e => simp [hme] at h
        | ok me =>
          simp only [hme] at h
          cases hmi : min_mag (.frame sub) mag_col with
          | error e => simp [hmi] at h
          | ok mi =>
            simp only [hmi] at h
            cases hrest : calc_stats lc bs mag_col with
            | error e => simp [hrest] at h
            | ok rest =>
              simp only [hrest, Except.ok.injEq] at h
              subst h
              obtain ⟨hlen, hidx⟩ := ih rest hrest
              refine ⟨by simp [hlen], ?_⟩
              intro i b hib
              cases i with
              | zero =>
                simp only [List.getElem?_cons_zero, Option.some.injEq] at hib
                subst hib
                exact ⟨sub, mx, me, mi, hsub, hmx, hme, hmi, by simp⟩
              | succ j =>
                simp only [List.getElem?_cons_succ] at hib
                obtain ⟨s2, m2, e2, i2, hs2, hm2, he2, hi2, hr2⟩ := hidx j b hib
                exact ⟨s2, m2, e2, i2, hs2, hm2, he2, hi2, by simpa using hr2⟩

/-- Claim C2 witness: on the band-keyed collection with band g holding the
3x3 test table, calc_stats over ["g"] records max 7, mean 11/3, min 1. -/
theorem claim2_witness :
    ∃ sub mx me mi, lcGet lcEx "g" = .ok sub ∧
      max_mag (.frame sub) "a" = .ok mx ∧
      mean_mag (.frame sub) "a" = .ok me ∧
      min_mag (.frame sub) "a" = .ok mi ∧
      ([("g", (⟨.num 7, .num (11/3), .num 1⟩ : Stat))])[0]? = some ("g", ⟨mx, me, mi⟩) :=
  (claim2_calc_stats lcEx ["g"] "a" [("g", ⟨.num 7, .num (11/3), .num 1⟩)]
    (by with_unfolding_all decide)).2 0 "g" (by with_unfolding_all decide)

/-- Claim C4: when a requested band is absent from the collection and every
other requested band is well-formed, calc_stats fails with KeyError on the
missing band instead of returning a result. -/
theorem claim4_missing_band (lc : List (String × DataFrame)) (mag_col b : String) :
    ∀ bands : List String, b ∈ bands → lc.lookup b = none →
      (∀ bp ∈ bands, bp ≠ b → bandOk lc mag_col bp = true) →
      calc_stats lc bands mag_col = .error (.keyError b) := by
  intro bands
  induction bands with
  | nil => intro hmem; cases hmem
  | cons b1 bs ih =>
    intro hmem hmiss hok
    by_cases he : b1 = b
    · subst he
      have hget : lcGet lc b1 = .error (.keyError b1) := by
        rw [lcGet, hmiss]
      simp only [calc_stats, hget]
    · have hmem2 : b ∈ bs := by
        rcases List.mem_cons.mp hmem with h2 | h2
        · exact absurd h2.symm he
        · exact h2
      have hbk := hok b1 (List.mem_cons_self _ _) he
      rw [bandOk] at hbk
      cases hlook : lc.lookup b1 with
      | none => rw [hlook] at hbk; simp at hbk
      | some sub =>
        rw [hlook] at hbk
        simp only [Bool.and_eq_true] at hbk
        obtain ⟨⟨ha, hb2⟩, hc⟩ := hbk
        obtain ⟨mxv, hmx⟩ := exceptOk_true ha
        obtain ⟨mev, hme⟩ := exceptOk_true hb2
        obtain ⟨miv, hmi⟩ := exceptOk_true hc
        have hget : lcGet lc b1 = .ok sub := by rw [lcGet, hlook]
        have hrest := ih hmem2 hmiss (fun bp hbp hne => hok bp (List.mem_cons_of_mem _ hbp) hne)
        simp only [calc_stats, hget, hmx, hme, hmi, hrest]

/-- Claim C4 witness: bands ["g","r"] with band r missing raises
KeyError("r"). -/
theorem claim4_witness :
    calc_stats lcEx ["g", "r"] "a" = .error (.keyError "r") :=
  claim4_missing_band lcEx "a" "r" ["g", "r"] (by with_unfolding_all decide)
    (by with_unfolding_all decide) (by with_unfolding_all decide)

/-- Claim C5, counterexample: on a column of text values, max_mag does not
raise; pandas happily returns the lexicographically largest string. -/
theorem claim5_counterexample :
    max_mag (.frame dfStr) "b" = .ok (.vstr "banana") ∧
      max_mag (.frame dfStr) "b" ≠ .error .typeError := by
  with_unfolding_all decide

/-- Claim C5, amended: a raw-string table argument makes every reducer raise
TypeError; mean_mag raises TypeError on any column containing text; but on
an all-text column min_mag and max_mag return the lexicographic extremum
(a string, never a coerced number). -/
theorem claim5_reducer_types :
    (∀ s c : String,
        max_mag (.pystr s) c = .error .typeError ∧
        min_mag (.pystr s) c = .error .typeError ∧
        mean_mag (.pystr s) c = .error .typeError) ∧
    (∀ (df : DataFrame) (c : String) (col : List Value),
        getItem (.frame df) c = .ok col → col.any isStr = true →
        mean_mag (.frame df) c = .error .typeError) ∧
    (∀ (df : DataFrame) (c : String) (s0 : String) (ss : List String),
        getItem (.frame df) c = .ok ((s0 :: ss).map Value.vstr) →
        max_mag (.frame df) c = .ok (.vstr (ss.foldl smax s0)) ∧
        min_mag (.frame df) c = .ok (.vstr (ss.foldl smin s0))) := by
  refine ⟨fun s c => ⟨rfl, rfl, rfl⟩, ?_, ?_⟩
  · intro df c col hg ha
    rw [mean_mag, hg, exbind_ok, seriesMean, if_pos ha]
  · intro df c s0 ss hg
    have hd : dropNan ((s0 :: ss).map Value.vstr) = .vstr s0 :: ss.map Value.vstr := by
      simpa using dropNan_map_vstr (s0 :: ss)
    constructor
    · rw [max_mag, hg, exbind_ok, seriesMax, hd, seriesMaxCore]
      rw [if_neg (by simp [isNumLike])]
      rw [if_pos (by simpa using all_isStr_map_vstr (s0 :: ss))]
      rw [foldl_vmaxS_map_vstr]
    · rw [min_mag, hg, exbind_ok, seriesMin, hd, seriesMinCore]
      rw [if_neg (by simp [isNumLike])]
      rw [if_pos (by simpa using all_isStr_map_vstr (s0 :: ss))]
      rw [foldl_vminS_map_vstr]

/-- Claim C5 witness: the raw string of the repository test, the text table
for mean_mag, and the lexicographic minimum of the text column. -/
theorem claim5_witness :
    max_mag (.pystr "string") "b" = .error .typeError ∧
      mean_mag (.frame dfStr) "b" = .error .typeError ∧
      min_mag (.frame dfStr) "b" = .ok (.vstr "apple") := by
  refine ⟨(claim5_reducer_types.1 "string" "b").1, ?_, ?_⟩
  · exact claim5_reducer_types.2.1 dfStr "b" [Value.vstr "apple", Value.vstr "banana"]
      (by with_unfolding_all decide) (by with_unfolding_all decide)
  · have h1 := (claim5_reducer_types.2.2 dfStr "b" "apple" ["banana"]
      (by with_unfolding_all decide)).2
    have h2 : (["banana"] : List String).foldl smin "apple" = "apple" := by
      with_unfolding_all decide
    rw [h2] at h1
    exact h1

theorem heapRead_append (x : DataFrame) : ∀ (h : Heap) (i : Nat), i < h.length →
    heapRead (h ++ [x]) i = heapRead h i := by
  intro h
  induction h with
  | nil => intro i hi; cases hi
  | cons d hs ih =>
    intro i hi
    cases i with
    | zero => rfl
    | succ j => exact ih j (Nat.lt_of_succ_lt_succ hi)

theorem heapRead_last (x : DataFrame) : ∀ h : Heap, heapRead (h ++ [x]) h.length = x := by
  intro h
  induction h with
  | nil => rfl
  | cons d hs ih => exact ih

theorem heapRead_default : ∀ (h : Heap) (i : Nat), h.length ≤ i → heapRead h i = dfEmpty := by
  intro h
  induction h with
  | nil => intro i _; cases i <;> rfl
  | cons d hs ih =>
    intro i hi
    cases i with
    | zero => cases hi
    | succ j => exact ih j (Nat.le_of_succ_le_succ hi)

/-- Claim C9: the heap-level run of normalize_lc leaves every pre-existing
table unchanged (the shifted table is a fresh allocation), its output agrees
with the pure function of the input table, and the heap-level reducers
return their heap unchanged. -/
theorem claim9_no_mutation (h : Heap) (l : Nat) (c : String) (hp : Heap) (out : List Value)
    (hrun : normalize_lc_heap h l c = .ok (hp, out)) :
    (∀ i : Nat, i < h.length → heapRead hp i = heapRead h i) ∧
    normalize_lc (heapRead h l) c = .ok out ∧
    (∀ (h2 : Heap) (l2 : Nat) (c2 : String) (h3 : Heap) (v : Value),
      min_mag_heap h2 l2 c2 = .ok (h3, v) → h3 = h2) ∧
    (∀ (h2 : Heap) (l2 : Nat) (c2 : String) (h3 : Heap) (v : Value),
      max_mag_heap h2 l2 c2 = .ok (h3, v) → h3 = h2) ∧
    (∀ (h2 : Heap) (l2 : Nat) (c2 : String) (h3 : Heap) (v : Value),
      mean_mag_heap h2 l2 c2 = .ok (h3, v) → h3 = h2) := by
  have hreduce : ∀ {α : Type} (e : Except PdError α) (h2 h3 : Heap) (v : α),
      e.map (fun w => (h2, w)) = .ok (h3, v) → h3 = h2 := by
    intro α e h2 h3 v hmap
    cases e with
    | error er => simp [Except.map] at hmap
    | ok w =>
      simp only [Except.map, Except.ok.injEq, Prod.mk.injEq] at hmap
      exact hmap.1.symm
  rw [normalize_lc_heap] at hrun
  cases hm : min_mag (.frame (heapRead h l)) c with
  | error e => rw [hm] at hrun; exact Except.noConfusion hrun
  | ok mn =>
    simp only [hm] at hrun
    cases hs : dfSub (heapRead h l) mn with
    | error e => rw [hs] at hrun; exact Except.noConfusion hrun
    | ok shifted =>
      simp only [hs] at hrun
      rw [heapRead_last shifted h] at hrun
      cases hmx : max_mag (.frame shifted) c with
      | error e => rw [hmx] at hrun; exact Except.noConfusion hrun
      | ok mx =>
        simp only [hmx] at hrun
        have hl : l < h.length := by
          by_contra hnl
          have hdef : heapRead h l = dfEmpty :=
            heapRead_default h l (le_of_not_lt hnl)
          rw [hdef] at hm
          exact Except.noConfusion hm
        rw [heapRead_append shifted h l hl] at hrun
        cases hg : getItem (.frame (heapRead h l)) c with
        | error e => rw [hg] at hrun; exact Except.noConfusion hrun
        | ok col =>
          simp only [hg] at hrun
          cases hcs : colSub col mn with
          | error e => rw [hcs] at hrun; exact Except.noConfusion hrun
          | ok diff =>
            simp only [hcs] at hrun
            cases hcd : colDiv diff mx with
            | error e => rw [hcd] at hrun; exact Except.noConfusion hrun
            | ok lc =>
              simp only [hcd, Except.ok.injEq, Prod.mk.injEq] at hrun
              obtain ⟨hheap, hout⟩ := hrun
              refine ⟨?_, ?_, fun _ _ _ _ _ hx => hreduce _ _ _ _ hx,
                fun _ _ _ _ _ hx => hreduce _ _ _ _ hx,
                fun _ _ _ _ _ hx => hreduce _ _ _ _ hx⟩
              · intro i hi
                rw [← hheap]
                exact heapRead_append shifted h i hi
              · simp only [normalize_lc, hm, hs, hmx, hg, hcs, hcd, hout]

/-- Claim C9 witness: a concrete heap run on the 3x3 test table at location
0; the run appends the shifted frame, leaves location 0 untouched, and
agrees with the pure normalize_lc. -/
theorem claim9_witness :
    normalize_lc_heap [dfEx] 0 "a" =
      .ok ([dfEx, toDF (subAll rcolsEx 1)], [.num 0, .num 1, .num (1/3)]) ∧
    heapRead [dfEx, toDF (subAll rcolsEx 1)] 0 = heapRead [dfEx] 0 ∧
    normalize_lc (heapRead [dfEx] 0) "a" = .ok [.num 0, .num 1, .num (1/3)] := by
  have hrun : normalize_lc_heap [dfEx] 0 "a" =
      .ok ([dfEx, toDF (subAll rcolsEx 1)], [Value.num 0, Value.num 1, Value.num (1/3)]) := by
    with_unfolding_all decide
  have hc := claim9_no_mutation [dfEx] 0 "a" _ _ hrun
  exact ⟨hrun, hc.1 0 (by decide), hc.2.1⟩

/-- Claim C10, counterexample to the unrestricted claim: a table whose
magnitude column is numeric, non-empty and non-constant but which carries a
text band column makes normalize_lc raise TypeError (the table-wide
subtraction hits the text column), so no per-row values in [0,1] are
returned. -/
theorem claim10_counterexample :
    normalize_lc dfMixNC "mag" = .error .typeError ∧
      normalize_lc dfMixNC "mag" ≠ .ok [Value.num 0, Value.num 1] := by
  with_unfolding_all decide
